import Mathlib

/-!
Verification of the dictionary data-structure engines of the
Dicion-rio-EDA repository (AVL tree, red-black tree, open-addressing
hash table with double hashing), against their natural-language
specification.

Each definition below is a shallow embedding of the corresponding C++
entity, translated line by line from the source files:

  * Project/include/Open_Hash/OpenAddressingHashTable.hpp
  * Project/include/AVL/avl.hpp (node type in Project/include/AVL/Node.hpp)
  * include/RB-TREE/rb_tree.hpp (node type in NodeRb.hpp)

Modelling conventions:

  * Machine integers (size_t, int, long long) are modelled as Nat.
    None of the statements proved here depends on wrap-around: every
    quantity involved stays far below 2^31.  Where a C++ expression
    could wrap in principle this is noted next to the definition.
  * Keys and values of the hash table are Nat and the hash functor
    (template parameter Hash, by default std::hash) is the identity,
    which is the standard library behaviour of std::hash on integral
    keys; the double-hash step and the probe sequence depend on the
    key only through the hash value, so quantifying over Nat keys with
    the identity hash is the same as quantifying over hash values.
  * The float member m_max_load_factor is modelled exactly as a
    rational mlfNum / mlfDen, and the float comparison
    (n + 1) / ts >= f as mlfDen * (n + 1) >= mlfNum * ts.  For the
    thresholds used here (0.75 = 3/4 exactly representable, and 11/10
    with quotients far from it) the float comparison of the source
    agrees with the exact rational one.
  * Exceptions (std::out_of_range, std::runtime_error) are modelled
    with Except Unit.
  * The mutual recursion add <-> rehash of the hash table and the
    while loops of the red-black tree are modelled with an explicit
    fuel parameter; on fuel exhaustion the state is returned
    unchanged.  Every concrete run below uses ample fuel (the deepest
    nesting that actually occurs is one rehash inside one add, and
    every loop is bounded by the table size or the node count).
-/

namespace OpenHash

/-- Slot states of the open-addressing table, source lines 46-51. -/
inductive SlotStatus where
  | EMPTY : SlotStatus
  | OCCUPIED : SlotStatus
  | DELETED : SlotStatus
deriving DecidableEq, Repr

/-- One slot of the table: a key-value pair plus its status,
source lines 53-58 (struct HashSlot). -/
structure HashSlot where
  key : Nat
  value : Nat
  status : SlotStatus
deriving DecidableEq, Repr

/-- A default-constructed slot: status EMPTY (the data pair is
value-initialised; its contents are never read while EMPTY). -/
def emptySlot : HashSlot := ⟨0, 0, SlotStatus.EMPTY⟩

/-- The member state of OpenAddressingHashTable, source lines 60-69.
m_max_load_factor is kept as the exact rational mlfNum / mlfDen. -/
structure Table where
  table_size : Nat
  number_of_elements : Nat
  mlfNum : Nat
  mlfDen : Nat
  table : List HashSlot
  comparisons : Nat
  collisions : Nat
deriving DecidableEq, Repr

/-- The constructor, source lines 218-225 (defaults: tableSize = 19,
max_load_factor = 0.75). -/
def mkTable (tableSize : Nat) (mlfNum mlfDen : Nat) : Table :=
  { table_size := tableSize
    number_of_elements := 0
    mlfNum := mlfNum
    mlfDen := mlfDen
    table := List.replicate tableSize emptySlot
    comparisons := 0
    collisions := 0 }

/-- m_table[i] (vector indexing). All accesses in the source are in
bounds; getD returns emptySlot out of bounds, which never happens on
the runs considered. -/
def slotAt (t : Table) (i : Nat) : HashSlot := t.table.getD i emptySlot

/-- Writing m_table[i]. -/
def setSlot (t : Table) (i : Nat) (s : HashSlot) : Table :=
  { t with table := t.table.set i s }

/-- HASH_PRIME, source line 76. -/
def HASH_PRIME : Nat := 13

/-- hash_code, source lines 138-142: m_hashing(k) % m_table_size with
the identity hash functor. -/
def hash_code (t : Table) (k : Nat) : Nat := k % t.table_size

/-- hash_code2, source lines 149-153: HASH_PRIME - (hash(k) % HASH_PRIME).
Since k % 13 < 13 the subtraction never underflows and the result lies
in 1..13. -/
def hash_code2 (k : Nat) : Nat := HASH_PRIME - k % HASH_PRIME

/-- The probe position used by find_slot, source line 174:
(initial_index + j * step) % m_table_size.  The source computes it
with j = i + 1 at the end of loop iteration i. -/
def probeIndex (init step ts j : Nat) : Nat := (init + j * step) % ts

/-- The for loop of find_slot, source lines 163-175, unrolled on the
number of remaining iterations (the loop runs i = 0 .. ts - 1, so it
is entered with remaining = ts and loop counter i = 0, looking at
probe index idx).  Returns the resulting index together with the
number of comparisons performed (comparisons++ runs once at the top
of every executed iteration). -/
def find_slot_from (t : Table) (k init step : Nat) :
    Nat → Nat → Nat → Nat × Nat
  | _, idx, 0 => (idx, 0)
  | i, idx, remaining + 1 =>
    let s := slotAt t idx
    if s.status = SlotStatus.EMPTY then (idx, 1)
    else if s.status = SlotStatus.OCCUPIED ∧ s.key = k then (idx, 1)
    else
      let p := find_slot_from t k init step (i + 1)
        (probeIndex init step t.table_size (i + 1)) remaining
      (p.1, p.2 + 1)

/-- find_slot, source lines 156-178.  Returns the located index and
the table with the (mutable) comparison counter advanced.  If the loop
exhausts all table_size iterations the last computed index is
returned, which is (init + ts * step) % ts = init, the initial index
(source line 177, "returns the last checked slot"). -/
def find_slot (t : Table) (k : Nat) : Nat × Table :=
  let init := hash_code t k
  let step := hash_code2 k
  let p := find_slot_from t k init step 0 init t.table_size
  (p.1, { t with comparisons := t.comparisons + p.2 })

/-- add, source lines 243-268.  The call add makes to
rehash(2 * m_table_size) is inlined here (it is the body of rehash
below, at new_size = 2 * m_table_size) so that the add/rehash mutual
recursion becomes structural on the fuel: a rehash performed by an add
running at fuel f + 1 reinserts the surviving entries with add at fuel
f.  With the load factors considered a nested rehash never happens,
and every concrete run below keeps the fuel strictly positive, so the
fuel-exhaustion branch (which returns the table unchanged) is never
taken. -/
def add (fuel : Nat) (t : Table) (k v : Nat) : Table :=
  let t1 :=
    if t.mlfDen * (t.number_of_elements + 1) ≥ t.mlfNum * t.table_size
    then
      match fuel with
      | 0 => t
      | fuel' + 1 =>
        t.table.foldl
          (fun acc slot =>
            if slot.status = SlotStatus.OCCUPIED then add fuel' acc slot.key slot.value
            else acc)
          { t with table := List.replicate (2 * t.table_size) emptySlot
                   table_size := 2 * t.table_size
                   number_of_elements := 0
                   collisions := 0 }
    else t
  let initial_index := hash_code t1 k
  let fr := find_slot t1 k
  let idx := fr.1
  let t2 := fr.2
  if (slotAt t2 idx).status = SlotStatus.OCCUPIED then
    setSlot t2 idx { slotAt t2 idx with value := v }
  else
    let t3 := if idx ≠ initial_index
      then { t2 with collisions := t2.collisions + 1 } else t2
    let t4 := setSlot t3 idx ⟨k, v, SlotStatus.OCCUPIED⟩
    { t4 with number_of_elements := t4.number_of_elements + 1 }

/-- rehash, source lines 191-207: copy the old slot vector, reset the
table to new_size empty slots, zero the element count and the
collision counter, then reinsert every OCCUPIED entry with add.  The
growth branch of add above is exactly this body at
new_size = 2 * m_table_size, with the reinserting adds running at one
fuel unit less. -/
def rehash (fuel : Nat) (t : Table) (new_size : Nat) : Table :=
  match fuel with
  | 0 => t
  | fuel' + 1 =>
    let old_table := t.table
    let t1 := { t with table := List.replicate new_size emptySlot
                       table_size := new_size
                       number_of_elements := 0
                       collisions := 0 }
    old_table.foldl
      (fun acc slot =>
        if slot.status = SlotStatus.OCCUPIED then add fuel' acc slot.key slot.value
        else acc) t1

/-- remove, source lines 286-295: find the slot; if it is OCCUPIED,
mark it DELETED and decrement the element count. -/
def remove (t : Table) (k : Nat) : Table :=
  let fr := find_slot t k
  let idx := fr.1
  let t1 := fr.2
  if (slotAt t1 idx).status = SlotStatus.OCCUPIED then
    let t2 := setSlot t1 idx { slotAt t1 idx with status := SlotStatus.DELETED }
    { t2 with number_of_elements := t2.number_of_elements - 1 }
  else t1

instance : DecidableEq (Except Unit Nat) := fun a b =>
  match a, b with
  | Except.ok x, Except.ok y => decidable_of_iff (x = y) (by simp)
  | Except.error _, Except.error _ => isTrue (by rfl)
  | Except.ok _, Except.error _ => isFalse (by simp)
  | Except.error _, Except.ok _ => isFalse (by simp)

/-- get, source lines 312-322: find the slot; throw std::out_of_range
unless it is OCCUPIED with the requested key. -/
def get (t : Table) (k : Nat) : Except Unit Nat × Table :=
  let fr := find_slot t k
  let idx := fr.1
  let t1 := fr.2
  if (slotAt t1 idx).status ≠ SlotStatus.OCCUPIED ∨ (slotAt t1 idx).key ≠ k
  then (Except.error (), t1)
  else (Except.ok (slotAt t1 idx).value, t1)

/-- contains, source lines 353-359: find the slot, bump the comparison
counter once more, and report whether the slot is OCCUPIED with the
requested key. -/
def contains (t : Table) (k : Nat) : Bool × Table :=
  let fr := find_slot t k
  let idx := fr.1
  let t1 := { fr.2 with comparisons := fr.2.comparisons + 1 }
  (decide ((slotAt t1 idx).status = SlotStatus.OCCUPIED ∧ (slotAt t1 idx).key = k), t1)

/-- An externally visible operation of the table. -/
inductive Op where
  | add (k v : Nat) : Op
  | remove (k : Nat) : Op
deriving DecidableEq, Repr

/-- Run a list of public operations against a table state. -/
def runOps (fuel : Nat) (t : Table) (ops : List Op) : Table :=
  ops.foldl
    (fun acc op =>
      match op with
      | Op.add k v => add fuel acc k v
      | Op.remove k => remove acc k) t

end OpenHash

namespace AVLTree

/-- The node type of the AVL tree (Node.hpp): a key-value pair, the
cached height, and the two children.  A null Nodeptr is the nil
constructor.  Keys come from a linear order (the repository
instantiates the template at lexicalStr / std::string / int; the
operators < and > used by the source are the strict order, and the
final else branch of each comparison cascade is the equality case). -/
inductive ATree (α β : Type) where
  | nil : ATree α β
  | node (key : α) (value : β) (hgt : Nat) (left : ATree α β) (right : ATree α β) : ATree α β
deriving DecidableEq, Repr

/-- The metric members of class AVL, source lines 37-39. -/
structure AVLStats where
  nodeCount : Nat
  comparisons : Nat
  rotations : Nat
deriving DecidableEq, Repr

/-- The freshly constructed AVL state: null root and zeroed counters. -/
def initStats : AVLStats := ⟨0, 0, 0⟩

variable {α β : Type} [LinearOrder α]

/-- height, source lines 173-176: the cached height field, 0 for null. -/
def heightF : ATree α β → Nat
  | ATree.nil => 0
  | ATree.node _ _ h _ _ => h

/-- getBalance, source lines 191-194: height(right) - height(left) as a
signed integer, 0 for null. -/
def getBalance : ATree α β → Int
  | ATree.nil => 0
  | ATree.node _ _ _ l r => (heightF r : Int) - (heightF l : Int)

/-- leftRotate, source lines 207-219.  The source dereferences
node->right unconditionally; it is called only when the right child is
a real node, and the embedding returns the tree unchanged in the
impossible null case. -/
def leftRotate (st : AVLStats) (t : ATree α β) : AVLStats × ATree α β :=
  match t with
  | ATree.node k v _ l (ATree.node uk uv _ ul ur) =>
    let newNode := ATree.node k v (1 + max (heightF l) (heightF ul)) l ul
    ({ st with rotations := st.rotations + 1 },
      ATree.node uk uv (1 + max (heightF newNode) (heightF ur)) newNode ur)
  | t => (st, t)

/-- rightRotate, source lines 232-244, mirror image of leftRotate. -/
def rightRotate (st : AVLStats) (t : ATree α β) : AVLStats × ATree α β :=
  match t with
  | ATree.node k v _ (ATree.node uk uv _ ul ur) r =>
    let newNode := ATree.node k v (1 + max (heightF ur) (heightF r)) ur r
    ({ st with rotations := st.rotations + 1 },
      ATree.node uk uv (1 + max (heightF ul) (heightF newNode)) ul newNode)
  | t => (st, t)

/-- The height update and rotation-case cascade that closes _insert,
source lines 299-320: node->height = 1 + max(height(left),
height(right)); then the four mutually exclusive rotation cases in the
order they appear in _insert (left-left, left-right, right-right,
right-left).  In the left-right and right-left cases the source first
replaces the child by its rotation and then rotates the node itself;
the height field written before the cascade is recomputed inside the
final rotation. -/
def rebalanceI (st : AVLStats) (t : ATree α β) : AVLStats × ATree α β :=
  match t with
  | ATree.nil => (st, ATree.nil)
  | ATree.node k v _ l r =>
    let t1 := ATree.node k v (1 + max (heightF l) (heightF r)) l r
    let bal := getBalance t1
    if bal < -1 ∧ getBalance l ≤ 0 then rightRotate st t1
    else if bal < -1 ∧ getBalance l > 0 then
      let p := leftRotate st l
      rightRotate p.1 (ATree.node k v (1 + max (heightF l) (heightF r)) p.2 r)
    else if bal > 1 ∧ getBalance r ≥ 0 then leftRotate st t1
    else if bal > 1 ∧ getBalance r < 0 then
      let p := rightRotate st r
      leftRotate p.1 (ATree.node k v (1 + max (heightF l) (heightF r)) l p.2)
    else (st, t1)

/-- The identical cascade as it appears at the end of _remove, source
lines 366-383; the four conditions are the same but tested in the
order left-left, right-right, left-right, right-left. -/
def rebalanceR (st : AVLStats) (t : ATree α β) : AVLStats × ATree α β :=
  match t with
  | ATree.nil => (st, ATree.nil)
  | ATree.node k v _ l r =>
    let t1 := ATree.node k v (1 + max (heightF l) (heightF r)) l r
    let bal := getBalance t1
    if bal < -1 ∧ getBalance l ≤ 0 then rightRotate st t1
    else if bal > 1 ∧ getBalance r ≥ 0 then leftRotate st t1
    else if bal < -1 ∧ getBalance l > 0 then
      let p := leftRotate st l
      rightRotate p.1 (ATree.node k v (1 + max (heightF l) (heightF r)) p.2 r)
    else if bal > 1 ∧ getBalance r < 0 then
      let p := rightRotate st r
      leftRotate p.1 (ATree.node k v (1 + max (heightF l) (heightF r)) l p.2)
    else (st, t1)

/-- _insert, source lines 278-321: recursive BST insert with the
comparison-counter convention of the source (comparisons += 1 inside
the key < branch, comparisons += 2 inside the key > branch and in the
equal branch), nodeCount++ on creating a node of height 1, value
overwrite on an equal key, and the rebalance cascade after a
structural change. -/
def insertA (st : AVLStats) (t : ATree α β) (k : α) (v : β) : AVLStats × ATree α β :=
  match t with
  | ATree.nil =>
    ({ st with nodeCount := st.nodeCount + 1 }, ATree.node k v 1 ATree.nil ATree.nil)
  | ATree.node k0 v0 h l r =>
    if k < k0 then
      let p := insertA { st with comparisons := st.comparisons + 1 } l k v
      rebalanceI p.1 (ATree.node k0 v0 h p.2 r)
    else if k > k0 then
      let p := insertA { st with comparisons := st.comparisons + 2 } r k v
      rebalanceI p.1 (ATree.node k0 v0 h l p.2)
    else
      ({ st with comparisons := st.comparisons + 2 }, ATree.node k0 v h l r)

/-- Nullness of a Nodeptr. -/
def isNil : ATree α β → Bool
  | ATree.nil => true
  | ATree.node _ _ _ _ _ => false

/-- minValueNode, source lines 256-262: follow left children while
they exist and return the data of the leftmost node, or none for a
null input (the source returns the null pointer unchanged in that
case). -/
def minValueNode : ATree α β → Option (α × β)
  | ATree.nil => none
  | ATree.node k0 v0 _ l _ =>
    match minValueNode l with
    | none => some (k0, v0)
    | some kv => some kv

/-- _remove, source lines 339-384: recursive BST removal with the same
comparison counting as _insert; a node with at most one real child
(the test !node->left || !node->right) is replaced by that child
(temp = node->left ? node->left : node->right, with nodeCount--), a
node with two children has its data overwritten with its in-order
successor (minValueNode of the right subtree, never null there - the
getD default is unreachable) and the successor key is removed
recursively from the right subtree; the rebalance cascade runs on the
unwind. -/
def removeA (st : AVLStats) (t : ATree α β) (k : α) : AVLStats × ATree α β :=
  match t with
  | ATree.nil => (st, ATree.nil)
  | ATree.node k0 v0 h l r =>
    if k < k0 then
      let p := removeA { st with comparisons := st.comparisons + 1 } l k
      rebalanceR p.1 (ATree.node k0 v0 h p.2 r)
    else if k > k0 then
      let p := removeA { st with comparisons := st.comparisons + 2 } r k
      rebalanceR p.1 (ATree.node k0 v0 h l p.2)
    else
      let st1 := { st with comparisons := st.comparisons + 2 }
      if isNil l || isNil r then
        ({ st1 with nodeCount := st1.nodeCount - 1 }, if isNil l then r else l)
      else
        let succ := (minValueNode r).getD (k0, v0)
        let p := removeA st1 r succ.1
        rebalanceR p.1 (ATree.node succ.1 succ.2 h l p.2)

/-- findNode, source lines 143-160: recursive search; comparisons++
before the key < test, a second comparisons++ before the key > test,
returning the node on equality and null at the bottom. -/
def findNodeA (st : AVLStats) (t : ATree α β) (k : α) : AVLStats × Option (α × β) :=
  match t with
  | ATree.nil => (st, none)
  | ATree.node k0 v0 _ l r =>
    let st1 := { st with comparisons := st.comparisons + 1 }
    if k < k0 then findNodeA st1 l k
    else
      let st2 := { st1 with comparisons := st1.comparisons + 1 }
      if k > k0 then findNodeA st2 r k
      else (st2, some (k0, v0))

/-- get, source lines 557-566: findNode, then the value or a
std::runtime_error on null. -/
def getA (st : AVLStats) (t : ATree α β) (k : α) : AVLStats × Except Unit β :=
  match findNodeA st t k with
  | (st1, some kv) => (st1, Except.ok kv.2)
  | (st1, none) => (st1, Except.error ())

/-- The sequence of comparison outcomes met on the descent from the
root to the key (or to the null where the key would be): lt when the
probe key is smaller, gt when it is larger, eq at the node that holds
it.  This is a pure specification function: it reads only the keys,
not the counters. -/
def searchPath (t : ATree α β) (k : α) : List Ordering :=
  match t with
  | ATree.nil => []
  | ATree.node k0 _ _ l r =>
    if k < k0 then Ordering.lt :: searchPath l k
    else if k > k0 then Ordering.gt :: searchPath r k
    else [Ordering.eq]

/-- The contractual cost of one comparison site: 1 for a less-than
outcome, 2 for a greater-than or equal outcome. -/
def outcomeWeight : Ordering → Nat
  | Ordering.lt => 1
  | _ => 2

/-- Total contractual cost of a descent. -/
def pathWeight (path : List Ordering) : Nat := (path.map outcomeWeight).sum

/-- Recomputed (true) height of a tree, ignoring the cached fields. -/
def realH : ATree α β → Nat
  | ATree.nil => 0
  | ATree.node _ _ _ l r => 1 + max (realH l) (realH r)

/-- Every cached height field equals 1 + max of the children heights
(0 for an absent child). -/
def heightsOk : ATree α β → Prop
  | ATree.nil => True
  | ATree.node _ _ h l r =>
    h = 1 + max (realH l) (realH r) ∧ heightsOk l ∧ heightsOk r

/-- The AVL balance condition: at every node the children heights
differ by at most one. -/
def balancedOk : ATree α β → Prop
  | ATree.nil => True
  | ATree.node _ _ _ l r =>
    realH l ≤ realH r + 1 ∧ realH r ≤ realH l + 1 ∧ balancedOk l ∧ balancedOk r

/-- The full AVL structural invariant of the specification: balance at
every node plus correctness of every cached height field. -/
def AVLInv (t : ATree α β) : Prop := heightsOk t ∧ balancedOk t

/-- A public operation of the AVL dictionary. -/
inductive AOp (α β : Type) where
  | add (k : α) (v : β) : AOp α β
  | remove (k : α) : AOp α β

/-- Run a list of public operations (add, source 416-419; remove,
source 429-432) against an AVL state. -/
def runAVL (s : AVLStats × ATree α β) (ops : List (AOp α β)) : AVLStats × ATree α β :=
  ops.foldl
    (fun acc op =>
      match op with
      | AOp.add k v => insertA acc.1 acc.2 k v
      | AOp.remove k => removeA acc.1 acc.2 k) s

end AVLTree

namespace RBTree

/-- Node colors, NodeRb.hpp (enum Color). -/
inductive Color where
  | RED : Color
  | BLACK : Color
deriving DecidableEq, Repr

/-- The fields of RBNode (NodeRb.hpp): key-value data, color and the
three links.  Pointers are heap addresses (Nat); address 0 stands for
the C++ nullptr and address 1 is the shared sentinel TNULL.  The
default-constructed node (used for TNULL before initializeTNULL runs)
has default data, color RED and null links. -/
structure RBNodeD where
  key : Nat
  val : Nat
  color : Color
  parent : Nat
  left : Nat
  right : Nat
deriving DecidableEq, Repr

instance : Inhabited RBNodeD := ⟨⟨0, 0, Color.RED, 0, 0, 0⟩⟩

/-- The whole-object state of class RB: the heap of nodes ever
allocated (address = list index; the entry at address 0 is a dummy
standing for the nullptr target and is never read on the runs
considered), the root pointer and the metric counters.  Memory of a
deleted node is not reclaimed in the model; the runs below never
touch a node after its delete, which the C++ could not do without
undefined behaviour. -/
structure RBState where
  heap : List RBNodeD
  root : Nat
  nodeCount : Nat
  comparisons : Nat
  rotations : Nat
  colors : Nat
deriving DecidableEq, Repr

/-- The nullptr address. -/
def NULLP : Nat := 0

/-- The address of the sentinel TNULL. -/
def TNULL : Nat := 1

/-- Dereference a pointer. -/
def nodeAt (s : RBState) (p : Nat) : RBNodeD := s.heap.getD p default

/-- Overwrite the node at address p. -/
def setNode (s : RBState) (p : Nat) (n : RBNodeD) : RBState :=
  { s with heap := s.heap.set p n }

/-- p->color = c. -/
def setColor (s : RBState) (p : Nat) (c : Color) : RBState :=
  setNode s p { nodeAt s p with color := c }

/-- p->color = c together with colors++ (the source increments the
recoloring counter at these assignments). -/
def setColorC (s : RBState) (p : Nat) (c : Color) : RBState :=
  let s1 := setColor s p c
  { s1 with colors := s1.colors + 1 }

/-- p->parent = q. -/
def setParent (s : RBState) (p : Nat) (q : Nat) : RBState :=
  setNode s p { nodeAt s p with parent := q }

/-- p->left = q. -/
def setLeft (s : RBState) (p : Nat) (q : Nat) : RBState :=
  setNode s p { nodeAt s p with left := q }

/-- p->right = q. -/
def setRight (s : RBState) (p : Nat) (q : Nat) : RBState :=
  setNode s p { nodeAt s p with right := q }

/-- p->data.second = v. -/
def setVal (s : RBState) (p : Nat) (v : Nat) : RBState :=
  setNode s p { nodeAt s p with val := v }

/-- The RB constructor with initializeTNULL, source lines 190-197 and
274-281: TNULL is allocated with color BLACK and null links, and the
root is TNULL. -/
def initRB : RBState :=
  { heap := [default, ⟨0, 0, Color.BLACK, NULLP, NULLP, NULLP⟩]
    root := TNULL
    nodeCount := 0
    comparisons := 0
    rotations := 0
    colors := 0 }

/-- leftRotate, source lines 339-356, translated statement by
statement (every pointer field is re-read from the current state at
the sequence point where the source reads it). -/
def leftRotate (s0 : RBState) (x : Nat) : RBState :=
  let s := { s0 with rotations := s0.rotations + 1 }
  let y := (nodeAt s x).right
  let s := setRight s x ((nodeAt s y).left)
  let s := if (nodeAt s y).left ≠ TNULL then setParent s ((nodeAt s y).left) x else s
  let s := setParent s y ((nodeAt s x).parent)
  let s :=
    if (nodeAt s y).parent = TNULL then { s with root := y }
    else if x = (nodeAt s ((nodeAt s x).parent)).left then
      setLeft s ((nodeAt s x).parent) y
    else setRight s ((nodeAt s x).parent) y
  let s := setLeft s y x
  setParent s x y

/-- rightRotate, source lines 369-386, mirror image of leftRotate. -/
def rightRotate (s0 : RBState) (y : Nat) : RBState :=
  let s := { s0 with rotations := s0.rotations + 1 }
  let x := (nodeAt s y).left
  let s := setLeft s y ((nodeAt s x).right)
  let s := if (nodeAt s x).right ≠ TNULL then setParent s ((nodeAt s x).right) y else s
  let s := setParent s x ((nodeAt s y).parent)
  let s :=
    if (nodeAt s x).parent = TNULL then { s with root := x }
    else if y = (nodeAt s ((nodeAt s y).parent)).right then
      setRight s ((nodeAt s y).parent) x
    else setLeft s ((nodeAt s y).parent) x
  let s := setRight s x y
  setParent s y x

/-- The while loop of insertFix, source lines 407-446, one iteration
per fuel unit.  k is the current fix-up node. -/
def insertFixGo (fuel : Nat) (s : RBState) (k : Nat) : RBState :=
  match fuel with
  | 0 => s
  | fuel' + 1 =>
    if k ≠ s.root ∧ (nodeAt s ((nodeAt s k).parent)).color = Color.RED then
      if (nodeAt s k).parent
          = (nodeAt s ((nodeAt s ((nodeAt s k).parent)).parent)).right then
        let u := (nodeAt s ((nodeAt s ((nodeAt s k).parent)).parent)).left
        if (nodeAt s u).color = Color.RED then
          let s := setColorC s u Color.BLACK
          let s := setColorC s ((nodeAt s k).parent) Color.BLACK
          let s := setColorC s ((nodeAt s ((nodeAt s k).parent)).parent) Color.RED
          insertFixGo fuel' s ((nodeAt s ((nodeAt s k).parent)).parent)
        else
          let kr := if k = (nodeAt s ((nodeAt s k).parent)).left
            then (nodeAt s k).parent else k
          let s := if k = (nodeAt s ((nodeAt s k).parent)).left
            then rightRotate s kr else s
          let s := setColorC s ((nodeAt s kr).parent) Color.BLACK
          let s := setColorC s ((nodeAt s ((nodeAt s kr).parent)).parent) Color.RED
          let s := leftRotate s ((nodeAt s ((nodeAt s kr).parent)).parent)
          insertFixGo fuel' s kr
      else
        let u := (nodeAt s ((nodeAt s ((nodeAt s k).parent)).parent)).right
        if (nodeAt s u).color = Color.RED then
          let s := setColorC s u Color.BLACK
          let s := setColorC s ((nodeAt s k).parent) Color.BLACK
          let s := setColorC s ((nodeAt s ((nodeAt s k).parent)).parent) Color.RED
          insertFixGo fuel' s ((nodeAt s ((nodeAt s k).parent)).parent)
        else
          let kr := if k = (nodeAt s ((nodeAt s k).parent)).right
            then (nodeAt s k).parent else k
          let s := if k = (nodeAt s ((nodeAt s k).parent)).right
            then leftRotate s kr else s
          let s := setColorC s ((nodeAt s kr).parent) Color.BLACK
          let s := setColorC s ((nodeAt s ((nodeAt s kr).parent)).parent) Color.RED
          let s := rightRotate s ((nodeAt s ((nodeAt s kr).parent)).parent)
          insertFixGo fuel' s kr
    else s

/-- insertFix, source lines 403-451: the loop followed by forcing the
root black (with colors++ only when it actually changes). -/
def insertFix (fuel : Nat) (s0 : RBState) (k : Nat) : RBState :=
  let s := insertFixGo fuel s0 k
  if (nodeAt s s.root).color ≠ Color.BLACK then
    let s1 := setColor s s.root Color.BLACK
    { s1 with colors := s1.colors + 1 }
  else s

/-- The descent loop of _insert, source lines 600-616: walk from the
root keeping the trailing pointer y, counting comparisons with the
1-for-less / 2-otherwise convention; on an equal key overwrite the
value and stop (the Option result is none in that case, otherwise
some y, the parent under which the new node must be attached). -/
def insertGo (fuel : Nat) (s : RBState) (key v : Nat) (x y : Nat) :
    RBState × Option Nat :=
  match fuel with
  | 0 => (s, some y)
  | fuel' + 1 =>
    if x ≠ TNULL then
      if key < (nodeAt s x).key then
        insertGo fuel' { s with comparisons := s.comparisons + 1 } key v
          ((nodeAt s x).left) x
      else if key > (nodeAt s x).key then
        insertGo fuel' { s with comparisons := s.comparisons + 2 } key v
          ((nodeAt s x).right) x
      else
        (setVal { s with comparisons := s.comparisons + 2 } x v, none)
    else (s, some y)

/-- _insert, source lines 598-641: descend, allocate the new red node
with TNULL children, attach it under y (or make it the root), color it
black immediately if it is the root, otherwise run insertFix. -/
def rbInsert (fuel : Nat) (s : RBState) (key v : Nat) : RBState :=
  match insertGo fuel s key v s.root TNULL with
  | (s1, none) => s1
  | (s1, some y) =>
    let addr := s1.heap.length
    let node : RBNodeD := ⟨key, v, Color.RED, y, TNULL, TNULL⟩
    let s2 := { s1 with heap := s1.heap ++ [node],
                        nodeCount := s1.nodeCount + 1 }
    let s3 :=
      if y = TNULL then { s2 with root := addr }
      else if key < (nodeAt s2 y).key then setLeft s2 y addr
      else setRight s2 y addr
    if (nodeAt s3 addr).parent = TNULL then setColorC s3 addr Color.BLACK
    else insertFix fuel s3 addr

/-- transplant, source lines 468-479.  Note that the final
v->parent = u->parent is executed even when v is TNULL, so the
sentinel parent field is written here. -/
def transplant (s0 : RBState) (u v : Nat) : RBState :=
  let s :=
    if (nodeAt s0 u).parent = TNULL then { s0 with root := v }
    else if u = (nodeAt s0 ((nodeAt s0 u).parent)).left then
      setLeft s0 ((nodeAt s0 u).parent) v
    else setRight s0 ((nodeAt s0 u).parent) v
  setParent s v ((nodeAt s u).parent)

/-- The while loop of deleteFix, source lines 500-557, one iteration
per fuel unit; x is the node carrying the extra black.  Returns the
final state together with the final value of the loop variable x,
because the statement after the loop reads it. -/
def deleteFixGo (fuel : Nat) (s : RBState) (x : Nat) : RBState × Nat :=
  match fuel with
  | 0 => (s, x)
  | fuel' + 1 =>
    if x ≠ s.root ∧ (nodeAt s x).color = Color.BLACK then
      if x = (nodeAt s ((nodeAt s x).parent)).left then
        let s1 :=
          if (nodeAt s ((nodeAt s ((nodeAt s x).parent)).right)).color = Color.RED then
            let s := setColorC s ((nodeAt s ((nodeAt s x).parent)).right) Color.BLACK
            let s := setColorC s ((nodeAt s x).parent) Color.RED
            leftRotate s ((nodeAt s x).parent)
          else s
        let sib := (nodeAt s1 ((nodeAt s1 x).parent)).right
        if (nodeAt s1 ((nodeAt s1 sib).left)).color = Color.BLACK ∧
            (nodeAt s1 ((nodeAt s1 sib).right)).color = Color.BLACK then
          let s2 := setColorC s1 sib Color.RED
          deleteFixGo fuel' s2 ((nodeAt s2 x).parent)
        else
          let s2 :=
            if (nodeAt s1 ((nodeAt s1 sib).right)).color = Color.BLACK then
              let s := setColorC s1 ((nodeAt s1 sib).left) Color.BLACK
              let s := setColorC s sib Color.RED
              rightRotate s sib
            else s1
          let sib2 := (nodeAt s2 ((nodeAt s2 x).parent)).right
          let s3 := setColor s2 sib2 ((nodeAt s2 ((nodeAt s2 x).parent)).color)
          let s4 := setColorC s3 ((nodeAt s3 x).parent) Color.BLACK
          let s5 := setColorC s4 ((nodeAt s4 sib2).right) Color.BLACK
          let s6 := leftRotate s5 ((nodeAt s5 x).parent)
          deleteFixGo fuel' s6 s6.root
      else
        let s1 :=
          if (nodeAt s ((nodeAt s ((nodeAt s x).parent)).left)).color = Color.RED then
            let s := setColorC s ((nodeAt s ((nodeAt s x).parent)).left) Color.BLACK
            let s := setColorC s ((nodeAt s x).parent) Color.RED
            rightRotate s ((nodeAt s x).parent)
          else s
        let sib := (nodeAt s1 ((nodeAt s1 x).parent)).left
        if (nodeAt s1 ((nodeAt s1 sib).left)).color = Color.BLACK ∧
            (nodeAt s1 ((nodeAt s1 sib).right)).color = Color.BLACK then
          let s2 := setColorC s1 sib Color.RED
          deleteFixGo fuel' s2 ((nodeAt s2 x).parent)
        else
          let s2 :=
            if (nodeAt s1 ((nodeAt s1 sib).left)).color = Color.BLACK then
              let s := setColorC s1 ((nodeAt s1 sib).right) Color.BLACK
              let s := setColorC s sib Color.RED
              leftRotate s sib
            else s1
          let sib2 := (nodeAt s2 ((nodeAt s2 x).parent)).left
          let s3 := setColor s2 sib2 ((nodeAt s2 ((nodeAt s2 x).parent)).color)
          let s4 := setColorC s3 ((nodeAt s3 x).parent) Color.BLACK
          let s5 := setColorC s4 ((nodeAt s4 sib2).left) Color.BLACK
          let s6 := rightRotate s5 ((nodeAt s5 x).parent)
          deleteFixGo fuel' s6 s6.root
    else (s, x)

/-- deleteFix, source lines 496-562: the loop followed by forcing the
final value of the loop variable x black (with colors++ only when it
actually changes). -/
def deleteFix (fuel : Nat) (s0 : RBState) (x : Nat) : RBState :=
  let p := deleteFixGo fuel s0 x
  let s := p.1
  if (nodeAt s p.2).color ≠ Color.BLACK then
    let s1 := setColor s p.2 Color.BLACK
    { s1 with colors := s1.colors + 1 }
  else s

/-- minimum, source lines 574-581: follow left links until TNULL. -/
def rbMinimum (fuel : Nat) (s : RBState) (node : Nat) : Nat :=
  match fuel with
  | 0 => node
  | fuel' + 1 =>
    if (nodeAt s node).left ≠ TNULL then rbMinimum fuel' s ((nodeAt s node).left)
    else node

/-- findNode, source lines 310-326: iterative search from the root
with the 1-for-less / 2-otherwise comparison counting; returns TNULL
when the key is absent. -/
def rbFindNode (fuel : Nat) (s : RBState) (cur key : Nat) : RBState × Nat :=
  match fuel with
  | 0 => (s, cur)
  | fuel' + 1 =>
    if cur ≠ TNULL then
      if key < (nodeAt s cur).key then
        rbFindNode fuel' { s with comparisons := s.comparisons + 1 } ((nodeAt s cur).left) key
      else if key > (nodeAt s cur).key then
        rbFindNode fuel' { s with comparisons := s.comparisons + 2 } ((nodeAt s cur).right) key
      else ({ s with comparisons := s.comparisons + 2 }, cur)
    else (s, TNULL)

/-- _remove, source lines 658-695.  The faulty guard of the source is
preserved exactly: in the two-children case with y->parent == z the
assignment x->parent = y is performed only when x is not TNULL (the
CLRS algorithm performs it unconditionally), so when x is TNULL the
sentinel keeps whatever parent pointer it had from an earlier
transplant.  delete z frees the node; the model keeps the bytes but
the runs below never access the address again. -/
def rbRemoveNode (fuel : Nat) (s0 : RBState) (z : Nat) : RBState :=
  let res :=
    if (nodeAt s0 z).left = TNULL then
      ((nodeAt s0 z).right, (nodeAt s0 z).color,
        transplant s0 z ((nodeAt s0 z).right))
    else if (nodeAt s0 z).right = TNULL then
      ((nodeAt s0 z).left, (nodeAt s0 z).color,
        transplant s0 z ((nodeAt s0 z).left))
    else
      let y := rbMinimum fuel s0 ((nodeAt s0 z).right)
      let yColor := (nodeAt s0 y).color
      let x := (nodeAt s0 y).right
      let s :=
        if (nodeAt s0 y).parent = z then
          if x ≠ TNULL then setParent s0 x y else s0
        else
          let s := transplant s0 y ((nodeAt s0 y).right)
          let s := setRight s y ((nodeAt s z).right)
          setParent s ((nodeAt s y).right) y
      let s := transplant s z y
      let s := setLeft s y ((nodeAt s z).left)
      let s := setParent s ((nodeAt s y).left) y
      let s := setColor s y ((nodeAt s z).color)
      (x, yColor, s)
  let x := res.1
  let yColor := res.2.1
  let s := { res.2.2 with nodeCount := res.2.2.nodeCount - 1 }
  if yColor = Color.BLACK then deleteFix fuel s x else s

/-- remove, source lines 723-730: findNode, no-op on TNULL, otherwise
_remove. -/
def rbRemove (fuel : Nat) (s : RBState) (key : Nat) : RBState :=
  let fr := rbFindNode fuel s s.root key
  if fr.2 = TNULL then fr.1
  else rbRemoveNode fuel fr.1 fr.2

/-- add, source lines 709-711. -/
def rbAdd (fuel : Nat) (s : RBState) (key v : Nat) : RBState :=
  rbInsert fuel s key v

/-- A public operation of the red-black dictionary. -/
inductive ROp where
  | add (k v : Nat) : ROp
  | remove (k : Nat) : ROp
deriving Repr

/-- Run a list of public operations against an RB state. -/
def runRB (fuel : Nat) (s : RBState) (ops : List ROp) : RBState :=
  ops.foldl
    (fun acc op =>
      match op with
      | ROp.add k v => rbAdd fuel acc k v
      | ROp.remove k => rbRemove fuel acc k) s

/-- The multiset of black-node counts over all paths from p down to
the sentinel (one list entry per path); property (c) of the red-black
invariant states that all entries are equal. -/
def blackHeights (fuel : Nat) (s : RBState) (p : Nat) : List Nat :=
  match fuel with
  | 0 => []
  | fuel' + 1 =>
    if p = TNULL then [0]
    else
      let l := blackHeights fuel' s ((nodeAt s p).left)
      let r := blackHeights fuel' s ((nodeAt s p).right)
      (l ++ r).map (fun n => n + (if (nodeAt s p).color = Color.BLACK then 1 else 0))

/-- Whether all entries of a list are equal to its head. -/
def allSame : List Nat → Bool
  | [] => true
  | x :: xs => xs.all (fun y => y = x)

/-- No red node has a red child, over the subtree rooted at p. -/
def noRedRed (fuel : Nat) (s : RBState) (p : Nat) : Bool :=
  match fuel with
  | 0 => true
  | fuel' + 1 =>
    if p = TNULL then true
    else
      (if (nodeAt s p).color = Color.RED then
        decide ((nodeAt s ((nodeAt s p).left)).color = Color.BLACK ∧
          (nodeAt s ((nodeAt s p).right)).color = Color.BLACK)
      else true) &&
      noRedRed fuel' s ((nodeAt s p).left) && noRedRed fuel' s ((nodeAt s p).right)

end RBTree

namespace OpenHash

/-- Operations add (a, v0 + a), add (a+1, v0 + a + 1), ..., add (b-1, v0 + b - 1). -/
def addRange (a b v0 : Nat) : List Op :=
  (List.range (b - a)).map (fun i => Op.add (a + i) (v0 + a + i))

/-- Operations remove a, remove (a+1), ..., remove (b-1). -/
def removeRange (a b : Nat) : List Op :=
  (List.range (b - a)).map (fun i => Op.remove (a + i))

/-- A sequence of public operations on a default-constructed table
(capacity 19, load factor 0.75) that ends with every one of the 19
slots DELETED: fill slots 0..13 (14 elements keeps the load factor
below 0.75 throughout), tombstone them, fill the remaining slots
14..18, tombstone them too. -/
def satTrace : List Op :=
  addRange 0 14 100 ++ removeRange 0 14 ++ addRange 14 19 100 ++ removeRange 14 19

/-- The fully tombstoned table. -/
def satTable : Table := runOps 8 (mkTable 19 3 4) satTrace

/-- satTable after add (19, 119): the probe sequence of key 19 finds
no EMPTY slot, find_slot falls through to the initial index 0, whose
DELETED slot receives the entry. -/
def satTable19 : Table := add 8 satTable 19 119

/-- A default-constructed table after inserting keys 0..14: the 15th
insert pushes the load factor to 15/19 >= 0.75, so the table grows to
capacity 38. -/
def grownTable : Table := runOps 8 (mkTable 19 3 4) (addRange 0 15 100)

/-- A table of capacity 11 and load factor 0.75 after inserting the
first n of the keys 0..8 with values 200..208 (the growth scenario of
the specification). -/
def c5Table (n : Nat) : Table :=
  runOps 8 (mkTable 11 3 4) ((List.range n).map (fun k => Op.add k (200 + k)))

/-- A default-constructed table driven into the state
slot 0 = OCCUPIED (key 19), slot 13 = OCCUPIED (key 38), every other
slot DELETED: key 38 (hash 38, initial index 0, step 1) is inserted
while slots 0..12 are occupied so it lands in slot 13; after the
tombstoning rounds, key 19 (initial index 0, step 7) finds no EMPTY
slot and lands in its fallback slot 0. -/
def yTrace : List Op :=
  addRange 0 13 100 ++ [Op.add 38 138] ++ removeRange 0 13 ++
    addRange 14 19 100 ++ removeRange 14 19 ++ [Op.add 19 119]

/-- The two-occupied-keys, otherwise fully tombstoned table. -/
def stateY : Table := runOps 8 (mkTable 19 3 4) yTrace

end OpenHash

namespace RBTree

/-- The failing operation sequence for the red-black tree: with int
keys, add 3, add 1, add 2, remove 3, add 3, add 6, add 5, add 4,
remove 5 (values equal to keys; values are irrelevant to the shape). -/
def bugTrace : List ROp :=
  [ROp.add 3 3, ROp.add 1 1, ROp.add 2 2, ROp.remove 3, ROp.add 3 3,
   ROp.add 6 6, ROp.add 5 5, ROp.add 4 4, ROp.remove 5]

/-- The red-black state after running bugTrace from a fresh tree. -/
def bugState : RBState := runRB 64 initRB bugTrace

/-- The red-black states after each proper prefix of bugTrace. -/
def bugPrefix (n : Nat) : RBState := runRB 64 initRB (bugTrace.take n)

end RBTree

/-!
Theorems.  Each claim of the specification audit is settled by exactly
one theorem below, marked with its claim id.
-/

set_option maxRecDepth 40000

namespace OpenHash

/-- C5: on a table of capacity 11 with load-factor threshold 0.75,
inserting the 9 distinct keys 0..8 leaves the capacity at 11 through
the first 8 inserts, grows the table to capacity 22 on the 9th insert
(when (8 + 1) / 11 would reach 0.818 >= 0.75, before the element is
placed), and afterwards all 9 keys are retrievable with their inserted
values and the size is 9. -/
theorem C5_growth_scenario :
    (c5Table 8).table_size = 11 ∧
    (c5Table 8).number_of_elements = 8 ∧
    (c5Table 9).table_size = 22 ∧
    (c5Table 9).number_of_elements = 9 ∧
    ((List.range 9).map (fun k => (get (c5Table 9) k).1)
      = (List.range 9).map (fun k => Except.ok (200 + k))) := by
  decide

/-- C7 (code divergence): in the fully tombstoned reachable state
satTable19 (one OCCUPIED slot holding key 19, all other 18 slots
DELETED, size 1), the absent key 38 is added with value 777; find_slot
exhausts the probe sequence of key 38 without meeting an EMPTY slot
and falls back to its initial index 0, where add sees an OCCUPIED slot
and overwrites the value stored for key 19 instead of inserting:
the size stays 1, key 38 is still absent, and the value of key 19 has
been clobbered with 777. -/
theorem C7_size_divergence :
    satTable19.number_of_elements = 1 ∧
    (contains satTable19 38).1 = false ∧
    (add 8 satTable19 38 777).number_of_elements = 1 ∧
    (contains (add 8 satTable19 38 777) 38).1 = false ∧
    slotAt satTable19 0 = ⟨19, 119, SlotStatus.OCCUPIED⟩ ∧
    slotAt (add 8 satTable19 38 777) 0 = ⟨19, 777, SlotStatus.OCCUPIED⟩ := by
  decide

/-- C8 (code divergence): continuing from satTable19, key 38 is
inserted with value 777 and never removed, yet get raises the
not-found exception for it (and contains is false), because the entry
was never stored. -/
theorem C8_notfound_divergence :
    (get (add 8 satTable19 38 777) 38).1 = Except.error () ∧
    (contains (add 8 satTable19 38 777) 38).1 = false := by
  decide

/-- C9 (code divergence): in the reachable state stateY (key 19 in
slot 0, key 38 in slot 13, all other 17 slots DELETED, size 2),
calling remove 38 once removes exactly key 38 and leaves key 19
present with size 1; calling remove 38 twice in a row additionally
tombstones slot 0 — the slot of the different key 19 — through the
find_slot fallback, leaving size 0 with key 19 gone.  The one-call and
two-call runs thus differ in the stored keys and the size, not merely
in the metric counters. -/
theorem C9_remove_twice_divergence :
    stateY.number_of_elements = 2 ∧
    (contains stateY 19).1 = true ∧ (contains stateY 38).1 = true ∧
    (remove stateY 38).number_of_elements = 1 ∧
    (contains (remove stateY 38) 19).1 = true ∧
    (remove (remove stateY 38) 38).number_of_elements = 0 ∧
    (contains (remove (remove stateY 38) 38) 19).1 = false := by
  decide

end OpenHash

namespace RBTree

/-- C4 (code divergence): running bugTrace (add 3, add 1, add 2,
remove 3, add 3, add 6, add 5, add 4, remove 5) from a fresh
red-black tree, all three red-black properties hold after each of the
first eight operations, but after the final remove the multiset of
black-node counts over the root-to-sentinel paths is [1, 1, 2, 2, 2, 1]:
property (c), equal black-height on every path, is violated (while
the root and the sentinel are still black and no red node has a red
child).  The final remove takes the two-children branch of _remove
with the successor being the right child of the removed node and a
sentinel right child, so the guarded x->parent = y assignment is
skipped and deleteFix walks from the sentinel through its stale
parent pointer (node 2, left over from the transplant of the earlier
remove 3), recoloring the wrong region. -/
theorem C4_black_height_violation :
    ((List.range 9).map (fun n =>
      allSame (blackHeights 32 (bugPrefix n) (bugPrefix n).root))
      = List.replicate 9 true) ∧
    blackHeights 32 bugState bugState.root = [1, 1, 2, 2, 2, 1] ∧
    allSame (blackHeights 32 bugState bugState.root) = false ∧
    (nodeAt bugState bugState.root).color = Color.BLACK ∧
    (nodeAt bugState TNULL).color = Color.BLACK ∧
    noRedRed 32 bugState bugState.root = true := by
  decide

end RBTree

namespace OpenHash

/-- C1 (counterexample): capacity 38 is reachable from a
default-constructed table (inserting keys 0..14 triggers the growth
rehash on the 15th insert, doubling 19 to 38), the key with hash 11
has double-hash step hash_code2 11 = 2, and its probe sequence at
table size 38 never reaches slot 0 within 38 probes (it only visits
odd slots), so the probe sequence does not visit every slot of the
table within tableSize probes for every reachable table size. -/
theorem C1_counterexample_capacity38 :
    grownTable.table_size = 38 ∧
    hash_code2 11 = 2 ∧
    ((List.range 38).all
      (fun i => decide (probeIndex (11 % 38) (hash_code2 11) 38 i ≠ 0)) = true) := by
  decide

/-- C1 (amended): the double-hash step hash_code2 is always in
1..HASH_PRIME, hence nonzero; and the probe sequence
index(i) = (h1 + i * step) mod ts visits every slot of the table
within ts probes whenever the step is coprime to the table size -
which is the case for every key at the default initial capacity 19,
since every value in 1..13 is coprime to 19 - but not at every
capacity produced by doubling, as the counterexample at capacity 38
shows. -/
theorem C1_nonzero_step_coprime_coverage :
    (∀ h : Nat, 1 ≤ hash_code2 h ∧ hash_code2 h ≤ HASH_PRIME) ∧
    (∀ h : Nat, Nat.Coprime (hash_code2 h) 19) ∧
    (∀ ts h1 step j : Nat, 0 < ts → Nat.Coprime step ts → j < ts →
      ∃ i, i < ts ∧ probeIndex h1 step ts i = j) := by
  refine ⟨?_, ?_, ?_⟩
  · intro h
    have hm : h % 13 < 13 := Nat.mod_lt h (by decide)
    unfold hash_code2 HASH_PRIME
    omega
  · intro h
    have hb : ∀ r, r < 13 → Nat.Coprime (13 - r) 19 := by decide
    have hm : h % 13 < 13 := Nat.mod_lt h (by decide)
    exact hb (h % 13) hm
  · intro ts h1 step j hts hco hj
    haveI : NeZero ts := ⟨Nat.pos_iff_ne_zero.mp hts⟩
    have hunit : IsUnit (step : ZMod ts) := by
      rw [ZMod.isUnit_iff_coprime]; exact hco
    obtain ⟨u, hu⟩ := hunit
    set i0 : ZMod ts := ((u⁻¹ : (ZMod ts)ˣ) : ZMod ts) * ((j : ZMod ts) - (h1 : ZMod ts))
      with hi0
    refine ⟨i0.val, ZMod.val_lt i0, ?_⟩
    have hcast : ((h1 + i0.val * step : Nat) : ZMod ts) = (j : ZMod ts) := by
      push_cast
      rw [ZMod.natCast_val, ZMod.cast_id, hi0, ← hu,
        mul_comm ((u⁻¹ : (ZMod ts)ˣ) : ZMod ts) _, Units.inv_mul_cancel_right]
      ring
    have h2 := congrArg ZMod.val hcast
    rw [ZMod.val_natCast, ZMod.val_natCast_of_lt hj] at h2
    exact h2

/-- C1 (witness): the coverage statement applied at table size 19
with step 6 = hash_code2 7, initial index 3 and target slot 11. -/
theorem C1_coverage_witness :
    0 < 19 ∧ Nat.Coprime 6 19 ∧ 11 < 19 ∧
    ∃ i, i < 19 ∧ probeIndex 3 6 19 i = 11 :=
  ⟨by decide, by decide, by decide,
    C1_nonzero_step_coprime_coverage.2.2 19 3 6 11 (by decide) (by decide) (by decide)⟩

end OpenHash

namespace OpenHash

/-- C2: tombstoned slots are skipped by the slot search and are
possible insertion targets.  First conjunct: whenever the slot
inspected at a loop iteration is DELETED, find_slot_from does not
stop there - it recurses to the next probe position (adding 1 for
the comparison made), exactly as for an OCCUPIED slot with a foreign
key; the loop stops only on EMPTY or on an OCCUPIED match.  Remaining
conjuncts: in the reachable fully tombstoned table satTable, slot 0
(the initial probe position of key 19) is DELETED, and add 19 119
stores the new entry into that very slot, realising the transition
DELETED to OCCUPIED, and increments the size. -/
theorem C2_tombstone_skip_and_reuse :
    (∀ (t : Table) (k init step i idx r : Nat),
      (slotAt t idx).status = SlotStatus.DELETED →
      find_slot_from t k init step i idx (r + 1)
        = ((find_slot_from t k init step (i + 1)
            (probeIndex init step t.table_size (i + 1)) r).1,
           (find_slot_from t k init step (i + 1)
            (probeIndex init step t.table_size (i + 1)) r).2 + 1)) ∧
    (slotAt satTable 0).status = SlotStatus.DELETED ∧
    hash_code satTable 19 = 0 ∧
    slotAt satTable19 0 = ⟨19, 119, SlotStatus.OCCUPIED⟩ ∧
    satTable19.number_of_elements = satTable.number_of_elements + 1 := by
  refine ⟨?_, by decide, by decide, by decide, by decide⟩
  intro t k init step i idx r h
  simp [find_slot_from, h]

/-- C2 (witness): the skip property applied to the concrete table
satTable at the DELETED slot 0, first iteration of the probe loop of
key 19 (initial index 0, step 7, 19 slots). -/
theorem C2_tombstone_witness :
    (slotAt satTable 0).status = SlotStatus.DELETED ∧
    find_slot_from satTable 19 0 7 0 0 19
      = ((find_slot_from satTable 19 0 7 1
          (probeIndex 0 7 satTable.table_size 1) 18).1,
         (find_slot_from satTable 19 0 7 1
          (probeIndex 0 7 satTable.table_size 1) 18).2 + 1) :=
  ⟨by decide, C2_tombstone_skip_and_reuse.1 satTable 19 0 7 0 0 18 (by decide)⟩

/-- C10: a rehash at positive fuel resets the collision counter to 0
before reinserting, so its result is entirely independent of the
accumulated collision count (first conjunct: the whole resulting
states coincide); consequently an add that triggers the growth rehash
produces a state independent of the collision count accumulated
before it (second conjunct), i.e. after such an add get_collisions
reports only the collisions of the reinsertions and of inserts after
the growth. -/
theorem C10_rehash_resets_collisions :
    (∀ (fuel : Nat) (t : Table) (ns c1 c2 : Nat),
      rehash (fuel + 1) { t with collisions := c1 } ns
        = rehash (fuel + 1) { t with collisions := c2 } ns) ∧
    (∀ (fuel : Nat) (t : Table) (k v c1 c2 : Nat),
      t.mlfDen * (t.number_of_elements + 1) ≥ t.mlfNum * t.table_size →
      add (fuel + 1) { t with collisions := c1 } k v
        = add (fuel + 1) { t with collisions := c2 } k v) := by
  constructor
  · intro fuel t ns c1 c2
    cases t
    rfl
  · intro fuel t k v c1 c2 htrig
    cases t
    simp only [add]
    rw [if_pos htrig, if_pos htrig]

/-- C10 (witness): the growth-triggering add applied to the concrete
one-slot table mkTable 1 1 2 (threshold 1/2, so the very first add
rehashes) with collision counters 5 and 8. -/
theorem C10_witness :
    (mkTable 1 1 2).mlfDen * ((mkTable 1 1 2).number_of_elements + 1)
      ≥ (mkTable 1 1 2).mlfNum * (mkTable 1 1 2).table_size ∧
    add 1 { mkTable 1 1 2 with collisions := 5 } 0 9
      = add 1 { mkTable 1 1 2 with collisions := 8 } 0 9 :=
  ⟨by decide, C10_rehash_resets_collisions.2 0 (mkTable 1 1 2) 0 9 5 8 (by decide)⟩

end OpenHash

namespace AVLTree

variable {α β : Type}

/-- Under heightsOk the cached height field equals the true height. -/
theorem heightF_eq {t : ATree α β} (h : heightsOk t) : heightF t = realH t := by
  cases t with
  | nil => rfl
  | node k v hh l r => exact h.1


/-- Unfolding lemma: true height of nil. -/
theorem realH_nil : realH (ATree.nil : ATree α β) = 0 := rfl

/-- Unfolding lemma: true height of a node. -/
theorem realH_node (k : α) (v : β) (h : Nat) (l r : ATree α β) :
    realH (ATree.node k v h l r) = 1 + max (realH l) (realH r) := rfl

/-- Unfolding lemma: cached height of nil. -/
theorem heightF_nil : heightF (ATree.nil : ATree α β) = 0 := rfl

/-- Unfolding lemma: cached height of a node. -/
theorem heightF_node (k : α) (v : β) (h : Nat) (l r : ATree α β) :
    heightF (ATree.node k v h l r) = h := rfl

/-- Unfolding lemma: balance factor of a node. -/
theorem getBalance_node (k : α) (v : β) (h : Nat) (l r : ATree α β) :
    getBalance (ATree.node k v h l r) = (heightF r : Int) - (heightF l : Int) := rfl

/-- Unfolding lemma: heightsOk at a node. -/
theorem heightsOk_node (k : α) (v : β) (h : Nat) (l r : ATree α β) :
    heightsOk (ATree.node k v h l r)
      = (h = 1 + max (realH l) (realH r) ∧ heightsOk l ∧ heightsOk r) := rfl

/-- Unfolding lemma: balancedOk at a node. -/
theorem balancedOk_node (k : α) (v : β) (h : Nat) (l r : ATree α β) :
    balancedOk (ATree.node k v h l r)
      = (realH l ≤ realH r + 1 ∧ realH r ≤ realH l + 1 ∧ balancedOk l ∧ balancedOk r) := rfl

/-- Unfolding lemma: balance factor of nil. -/
theorem getBalance_nil : getBalance (ATree.nil : ATree α β) = 0 := rfl

/-- The combined specification of the height-update-and-rotate
cascade: applied to a node whose children are valid AVL trees with
true heights differing by at most 2 it returns a valid AVL tree whose
true height lies between max(hl, hr) and 1 + max(hl, hr), is at least
1 + min(hl, hr), and equals exactly 1 + max(hl, hr) when the children
heights already differ by at most 1 (no rotation case). -/
theorem rebalance_core [LinearOrder α] (st : AVLStats) (k : α) (v : β) (h0 : Nat)
    (l r : ATree α β)
    (hlOk : heightsOk l) (hlB : balancedOk l) (hrOk : heightsOk r) (hrB : balancedOk r)
    (hd1 : realH l ≤ realH r + 2) (hd2 : realH r ≤ realH l + 2) :
    heightsOk (rebalanceI st (ATree.node k v h0 l r)).2 ∧
    balancedOk (rebalanceI st (ATree.node k v h0 l r)).2 ∧
    max (realH l) (realH r) ≤ realH (rebalanceI st (ATree.node k v h0 l r)).2 ∧
    1 + min (realH l) (realH r) ≤ realH (rebalanceI st (ATree.node k v h0 l r)).2 ∧
    realH (rebalanceI st (ATree.node k v h0 l r)).2 ≤ 1 + max (realH l) (realH r) ∧
    (realH l ≤ realH r + 1 → realH r ≤ realH l + 1 →
      realH (rebalanceI st (ATree.node k v h0 l r)).2 = 1 + max (realH l) (realH r)) := by
  have el : heightF l = realH l := heightF_eq hlOk
  have er : heightF r = realH r := heightF_eq hrOk
  simp only [rebalanceI, getBalance_node, heightF_node, el, er]
  split_ifs with hA hB hC hD
  · -- left-left: single right rotation
    obtain ⟨hA1, hA2⟩ := hA
    cases l with
    | nil => exfalso; rw [realH_nil] at hA1; omega
    | node lk lv lh la lb =>
      rw [heightsOk_node] at hlOk
      obtain ⟨elh, laOk, lbOk⟩ := hlOk
      rw [balancedOk_node] at hlB
      obtain ⟨hba1, hba2, laB, lbB⟩ := hlB
      have ela := heightF_eq laOk
      have elb := heightF_eq lbOk
      rw [getBalance_node, ela, elb] at hA2
      rw [realH_node] at hA1 hd1 hd2
      simp only [rightRotate, heightF_node, ela, elb, er]
      simp only [heightsOk_node, balancedOk_node, realH_node]
      repeat' apply And.intro
      all_goals first | trivial | assumption | (intros; first | trivial | omega)
  · -- left-right: rotate the left child left, then right rotation
    obtain ⟨hB1, hB2⟩ := hB
    cases l with
    | nil => exfalso; rw [realH_nil] at hB1; omega
    | node lk lv lh la lb =>
      rw [heightsOk_node] at hlOk
      obtain ⟨elh, laOk, lbOk⟩ := hlOk
      rw [balancedOk_node] at hlB
      obtain ⟨hba1, hba2, laB, lbB⟩ := hlB
      have ela := heightF_eq laOk
      have elb := heightF_eq lbOk
      rw [getBalance_node, ela, elb] at hB2
      cases lb with
      | nil => exfalso; rw [realH_nil] at hB2; omega
      | node bk bv bh bc bd =>
        rw [heightsOk_node] at lbOk
        obtain ⟨ebh, bcOk, bdOk⟩ := lbOk
        rw [balancedOk_node] at lbB
        obtain ⟨hbb1, hbb2, bcB, bdB⟩ := lbB
        have ebc := heightF_eq bcOk
        have ebd := heightF_eq bdOk
        simp only [leftRotate, rightRotate, heightF_node, ela, ebc, ebd, er]
        simp only [realH_node] at hB1 hB2 hd1 hd2 hba1 hba2 elh ebh
        simp only [heightsOk_node, balancedOk_node, realH_node]
        repeat' apply And.intro
        all_goals first | trivial | assumption | (intros; first | trivial | omega)
  · -- right-right: single left rotation
    obtain ⟨hC1, hC2⟩ := hC
    cases r with
    | nil => exfalso; rw [realH_nil] at hC1; omega
    | node rk rv rh ra rb =>
      rw [heightsOk_node] at hrOk
      obtain ⟨erh, raOk, rbOk⟩ := hrOk
      rw [balancedOk_node] at hrB
      obtain ⟨hra1, hra2, raB, rbB⟩ := hrB
      have era := heightF_eq raOk
      have erb := heightF_eq rbOk
      rw [getBalance_node, era, erb] at hC2
      rw [realH_node] at hC1 hd1 hd2
      simp only [leftRotate, heightF_node, era, erb, el]
      simp only [heightsOk_node, balancedOk_node, realH_node]
      repeat' apply And.intro
      all_goals first | trivial | assumption | (intros; first | trivial | omega)
  · -- right-left: rotate the right child right, then left rotation
    obtain ⟨hD1, hD2⟩ := hD
    cases r with
    | nil => exfalso; rw [realH_nil] at hD1; omega
    | node rk rv rh ra rb =>
      rw [heightsOk_node] at hrOk
      obtain ⟨erh, raOk, rbOk⟩ := hrOk
      rw [balancedOk_node] at hrB
      obtain ⟨hra1, hra2, raB, rbB⟩ := hrB
      have era := heightF_eq raOk
      have erb := heightF_eq rbOk
      rw [getBalance_node, era, erb] at hD2
      cases ra with
      | nil => exfalso; rw [realH_nil] at hD2; omega
      | node ak av ah ac ad =>
        rw [heightsOk_node] at raOk
        obtain ⟨eah, acOk, adOk⟩ := raOk
        rw [balancedOk_node] at raB
        obtain ⟨haa1, haa2, acB, adB⟩ := raB
        have eac := heightF_eq acOk
        have ead := heightF_eq adOk
        simp only [rightRotate, leftRotate, heightF_node, eac, ead, erb, el]
        simp only [realH_node] at hD1 hD2 hd1 hd2 hra1 hra2 erh eah
        simp only [heightsOk_node, balancedOk_node, realH_node]
        repeat' apply And.intro
        all_goals first | trivial | assumption | (intros; first | trivial | omega)
  · -- balanced: no rotation, only the height update
    simp only [heightsOk_node, balancedOk_node, realH_node]
    repeat' apply And.intro
    all_goals first | trivial | assumption | (intros; first | trivial | omega)

/-- The remove-side cascade tests the same four mutually exclusive
rotation conditions as the insert-side cascade, only in a different
order, so the two cascades compute the same result. -/
theorem rebalanceR_eq_rebalanceI [LinearOrder α] (st : AVLStats) (t : ATree α β) :
    rebalanceR st t = rebalanceI st t := by
  cases t with
  | nil => rfl
  | node k v h l r =>
    simp only [rebalanceR, rebalanceI]
    split_ifs <;> first | rfl | omega

/-- _insert preserves the AVL invariant and grows the true height by
at most one. -/
theorem insertA_avl [LinearOrder α] (k : α) (v : β) :
    ∀ (t : ATree α β) (st : AVLStats), AVLInv t →
      AVLInv (insertA st t k v).2 ∧
      realH t ≤ realH (insertA st t k v).2 ∧
      realH (insertA st t k v).2 ≤ realH t + 1 := by
  intro t
  induction t with
  | nil =>
    intro st _
    refine ⟨⟨⟨?_, trivial, trivial⟩, ?_⟩, ?_, ?_⟩ <;>
      simp [insertA, realH_nil, realH_node, balancedOk_node, balancedOk]
  | node k0 v0 h l r ihl ihr =>
    intro st hinv
    obtain ⟨hOk, hB⟩ := hinv
    rw [heightsOk_node] at hOk
    obtain ⟨eh, lOk, rOk⟩ := hOk
    rw [balancedOk_node] at hB
    obtain ⟨b1, b2, lB, rB⟩ := hB
    simp only [insertA]
    split_ifs with hlt hgt
    · have IH := ihl { st with comparisons := st.comparisons + 1 } ⟨lOk, lB⟩
      obtain ⟨⟨lOk2, lB2⟩, hg1, hg2⟩ := IH
      have RC := rebalance_core
        (insertA { st with comparisons := st.comparisons + 1 } l k v).1 k0 v0 h
        (insertA { st with comparisons := st.comparisons + 1 } l k v).2 r
        lOk2 lB2 rOk rB (by omega) (by omega)
      obtain ⟨cOk, cB, cb1, cb2, cb3, cb4⟩ := RC
      refine ⟨⟨cOk, cB⟩, ?_, ?_⟩ <;>
        · rw [realH_node]
          omega
    · have IH := ihr { st with comparisons := st.comparisons + 2 } ⟨rOk, rB⟩
      obtain ⟨⟨rOk2, rB2⟩, hg1, hg2⟩ := IH
      have RC := rebalance_core
        (insertA { st with comparisons := st.comparisons + 2 } r k v).1 k0 v0 h
        l (insertA { st with comparisons := st.comparisons + 2 } r k v).2
        lOk lB rOk2 rB2 (by omega) (by omega)
      obtain ⟨cOk, cB, cb1, cb2, cb3, cb4⟩ := RC
      refine ⟨⟨cOk, cB⟩, ?_, ?_⟩ <;>
        · rw [realH_node]
          omega
    · exact ⟨⟨⟨eh, lOk, rOk⟩, ⟨b1, b2, lB, rB⟩⟩, le_refl _, Nat.le_succ _⟩

/-- _remove preserves the AVL invariant and shrinks the true height
by at most one. -/
theorem removeA_avl [LinearOrder α] :
    ∀ (t : ATree α β) (st : AVLStats) (k : α), AVLInv t →
      AVLInv (removeA st t k).2 ∧
      realH (removeA st t k).2 ≤ realH t ∧
      realH t ≤ realH (removeA st t k).2 + 1 := by
  intro t
  induction t with
  | nil =>
    intro st k _
    exact ⟨⟨trivial, trivial⟩, le_refl _, Nat.le_succ _⟩
  | node k0 v0 h l r ihl ihr =>
    intro st k hinv
    obtain ⟨hOk, hB⟩ := hinv
    rw [heightsOk_node] at hOk
    obtain ⟨eh, lOk, rOk⟩ := hOk
    rw [balancedOk_node] at hB
    obtain ⟨b1, b2, lB, rB⟩ := hB
    simp only [removeA]
    split_ifs with hlt hgt hch hl4
    · have IH := ihl { st with comparisons := st.comparisons + 1 } k ⟨lOk, lB⟩
      obtain ⟨⟨lOk2, lB2⟩, hg1, hg2⟩ := IH
      rw [rebalanceR_eq_rebalanceI]
      have RC := rebalance_core
        (removeA { st with comparisons := st.comparisons + 1 } l k).1 k0 v0 h
        (removeA { st with comparisons := st.comparisons + 1 } l k).2 r
        lOk2 lB2 rOk rB (by omega) (by omega)
      obtain ⟨cOk, cB, cb1, cb2, cb3, cb4⟩ := RC
      refine ⟨⟨cOk, cB⟩, ?_, ?_⟩ <;>
        · rw [realH_node]
          omega
    · have IH := ihr { st with comparisons := st.comparisons + 2 } k ⟨rOk, rB⟩
      obtain ⟨⟨rOk2, rB2⟩, hg1, hg2⟩ := IH
      rw [rebalanceR_eq_rebalanceI]
      have RC := rebalance_core
        (removeA { st with comparisons := st.comparisons + 2 } r k).1 k0 v0 h
        l (removeA { st with comparisons := st.comparisons + 2 } r k).2
        lOk lB rOk2 rB2 (by omega) (by omega)
      obtain ⟨cOk, cB, cb1, cb2, cb3, cb4⟩ := RC
      refine ⟨⟨cOk, cB⟩, ?_, ?_⟩ <;>
        · rw [realH_node]
          omega
    · -- at most one real child, left child null: replaced by the right child
      cases l with
      | node lk lv lh la lb => simp [isNil] at hl4
      | nil =>
        simp only [realH_node, realH_nil]
        exact ⟨⟨rOk, rB⟩, by omega, by omega⟩
    · -- at most one real child, left child real (so right child null):
      -- replaced by the left child
      have hr0 : isNil r = true := by
        rcases Bool.or_eq_true_iff.mp hch with h | h
        · exact absurd h hl4
        · exact h
      cases r with
      | node rk rv rh rl rr => simp [isNil] at hr0
      | nil =>
        simp only [realH_node, realH_nil]
        exact ⟨⟨lOk, lB⟩, by omega, by omega⟩
    · -- two children: successor replacement and removal from the right
      have IH := ihr { st with comparisons := st.comparisons + 2 }
        ((minValueNode r).getD (k0, v0)).1 ⟨rOk, rB⟩
      obtain ⟨⟨rOk2, rB2⟩, hg1, hg2⟩ := IH
      rw [rebalanceR_eq_rebalanceI]
      have RC := rebalance_core
        (removeA { st with comparisons := st.comparisons + 2 } r
          ((minValueNode r).getD (k0, v0)).1).1
        ((minValueNode r).getD (k0, v0)).1 ((minValueNode r).getD (k0, v0)).2 h
        l
        (removeA { st with comparisons := st.comparisons + 2 } r
          ((minValueNode r).getD (k0, v0)).1).2
        lOk lB rOk2 rB2 (by omega) (by omega)
      obtain ⟨cOk, cB, cb1, cb2, cb3, cb4⟩ := RC
      refine ⟨⟨cOk, cB⟩, ?_, ?_⟩ <;>
        · rw [realH_node]
          omega

/-- C3: starting from an empty AVL tree, after every sequence of add
(insert-or-update) and remove operations the tree satisfies the full
AVL invariant: at every node the children heights differ by at most 1,
and every cached height field equals 1 + max of the children heights
(0 for an absent child).  Since every prefix of a sequence is itself a
sequence, this covers the state after each individual operation. -/
theorem C3_avl_invariant_preservation [LinearOrder α] (ops : List (AOp α β)) :
    AVLInv (runAVL (initStats, ATree.nil) ops).2 := by
  have main : ∀ (ops2 : List (AOp α β)) (s : AVLStats × ATree α β),
      AVLInv s.2 → AVLInv (runAVL s ops2).2 := by
    intro ops2
    induction ops2 with
    | nil => intro s h; exact h
    | cons op rest ih =>
      intro s h
      cases op with
      | add k v => exact ih _ (insertA_avl k v s.2 s.1 h).1
      | remove k => exact ih _ (removeA_avl s.2 s.1 k h).1
  exact main ops _ ⟨trivial, trivial⟩

/-- Rotations do not touch the comparison counter. -/
theorem leftRotate_comparisons (st : AVLStats) (t : ATree α β) :
    (leftRotate st t).1.comparisons = st.comparisons := by
  cases t with
  | nil => rfl
  | node k v h l r => cases r <;> rfl

/-- Rotations do not touch the comparison counter. -/
theorem rightRotate_comparisons (st : AVLStats) (t : ATree α β) :
    (rightRotate st t).1.comparisons = st.comparisons := by
  cases t with
  | nil => rfl
  | node k v h l r => cases l <;> rfl

/-- The rebalance cascade does not touch the comparison counter. -/
theorem rebalanceI_comparisons [LinearOrder α] (st : AVLStats) (t : ATree α β) :
    (rebalanceI st t).1.comparisons = st.comparisons := by
  cases t with
  | nil => rfl
  | node k v h l r =>
    simp only [rebalanceI]
    split_ifs <;>
      simp [leftRotate_comparisons, rightRotate_comparisons]

/-- C6: the comparison counter of the AVL tree advances by exactly
the contractual per-site weights along the search path - 1 for each
site where the probe key is less than the node key, 2 for each site
where it is greater or equal - both in findNode (used by search) and
in _insert.  The path and its weights are computed by the pure
specification functions searchPath and pathWeight, so the counter
increase is fully determined by the sequence of outcomes along the
root-to-node path. -/
theorem C6_comparison_counting [LinearOrder α] :
    ∀ (t : ATree α β) (st : AVLStats) (k : α) (v : β),
      (findNodeA st t k).1.comparisons
        = st.comparisons + pathWeight (searchPath t k) ∧
      (insertA st t k v).1.comparisons
        = st.comparisons + pathWeight (searchPath t k) := by
  intro t
  induction t with
  | nil =>
    intro st k v
    simp [findNodeA, insertA, searchPath, pathWeight]
  | node k0 v0 h l r ihl ihr =>
    intro st k v
    constructor
    · simp only [findNodeA, searchPath]
      split_ifs with h1 h2
      · rw [(ihl { st with comparisons := st.comparisons + 1 } k v).1]
        simp [pathWeight, outcomeWeight]
        try omega
      · rw [(ihr { st with comparisons := st.comparisons + 1 + 1 } k v).1]
        simp [pathWeight, outcomeWeight]
        try omega
      · simp [pathWeight, outcomeWeight]
        try omega
    · simp only [insertA, searchPath]
      split_ifs with h1 h2
      · rw [rebalanceI_comparisons,
          (ihl { st with comparisons := st.comparisons + 1 } k v).2]
        simp [pathWeight, outcomeWeight]
        try omega
      · rw [rebalanceI_comparisons,
          (ihr { st with comparisons := st.comparisons + 2 } k v).2]
        simp [pathWeight, outcomeWeight]
        try omega
      · simp [pathWeight, outcomeWeight]
        try omega
